import Mathlib

/-!
Verification of the YieldSyncx Merkle batching and aggregation core.

This file gives a shallow embedding of the cryptographic batching core of the
repository and proves (or refutes) the specification's claims about it.

Modelling conventions:

* Byte strings are `List Nat` (each entry a byte value); `keccak256` is an
  uninterpreted function passed as a parameter (`kb` for hashing packed byte
  strings into a hex-digest string, `k2` for
  `ethers.solidityPackedKeccak256(['bytes32','bytes32'], [x, y])` applied to
  two digest strings in the given order).  Digests are identified with their
  canonical lowercase `0x...` hex-string encoding, which is how every digest
  flows through the TypeScript code; JavaScript string comparison on such
  strings coincides with Lean's `String` order (both are lexicographic on the
  ASCII code units).
* JavaScript numbers used for statistics are modelled as exact rationals;
  `Math.sqrt` is kept symbolic by storing the radicand (the variance) and
  applying `Real.sqrt` in theorem statements.
* `Option` models thrown exceptions (`none` = the function throws).
-/

/-- Byte strings are lists of naturals (each entry a byte value). -/
abbrev Bytes := List Nat

/-- Standard UTF-8 encoding of a single character (1 to 4 bytes). -/
def utf8Char (c : Char) : Bytes :=
  let n := c.toNat
  if n < 128 then [n]
  else if n < 2048 then [192 + n / 64, 128 + n % 64]
  else if n < 65536 then [224 + n / 4096, 128 + n / 64 % 64, 128 + n % 64]
  else [240 + n / 262144, 128 + n / 4096 % 64, 128 + n / 64 % 64, 128 + n % 64]

/-- UTF-8 encoding of a string, as used both by `ethers.solidityPacked` for
`string` values and by Solidity `abi.encodePacked` on `string calldata`. -/
def utf8 (s : String) : Bytes := s.data.foldr (fun c acc => utf8Char c ++ acc) []

/-- Big-endian 32-byte encoding of a natural number, the EVM `uint256`
packing (the value is implicitly truncated to 256 bits). -/
def be256 (n : Nat) : Bytes := (List.range 32).map (fun i => n / 256 ^ (31 - i) % 256)

/-- Canonical sensor record (the 5-tuple that gets hashed).  String fields
are the exact JavaScript/Solidity strings; `timestamp` is a natural. -/
structure SensorData where
  deviceId : String
  timestamp : Nat
  data : String
  dataType : String
  location : String
deriving DecidableEq, Repr

/-- `ethers.solidityPacked(['string','uint256','string','string','string'],
[deviceId, timestamp, data, dataType, location])` — the tightly packed bytes
hashed for a leaf (merkleTreeUtils.ts, merkleTree.ts). -/
def solidityPacked5 (r : SensorData) : Bytes :=
  utf8 r.deviceId ++ be256 r.timestamp ++ utf8 r.data ++ utf8 r.dataType ++ utf8 r.location

/-- `abi.encodePacked(_deviceId, _timestamp, _data, _dataType, _location)`
as computed on-chain in `IoTData.storeData` (strings are their UTF-8 bytes
with no padding, `uint256` is 32 big-endian bytes). -/
def abiEncodePacked5 (deviceId : String) (timestamp : Nat)
    (data dataType location : String) : Bytes :=
  utf8 deviceId ++ be256 timestamp ++ utf8 data ++ utf8 dataType ++ utf8 location

/-- Off-chain leaf hash of a record: keccak-256 of the packed 5-tuple. -/
def leafHash (kb : Bytes → String) (r : SensorData) : String := kb (solidityPacked5 r)

/-- On-chain `dataHash` stored by `IoTData.storeData`:
`keccak256(abi.encodePacked(_deviceId, block.timestamp, _data, _dataType, _location))`. -/
def storeDataHash (kb : Bytes → String) (deviceId : String) (timestamp : Nat)
    (data dataType location : String) : String :=
  kb (abiEncodePacked5 deviceId timestamp data dataType location)

/-- Result of Merkle tree generation: the root and the per-leaf-index proofs. -/
structure MerkleResult where
  merkleRoot : String
  proofs : List (List String)
deriving DecidableEq, Repr

/-- JavaScript string comparison `a < b` on the character sequences:
lexicographic on code units.  (On the `0x...` hex digests that flow through
the Merkle code all characters are ASCII, where UTF-16 code units and Unicode
code points agree.) -/
def jsLtChars : List Char → List Char → Bool
  | _, [] => false
  | [], _ :: _ => true
  | a :: as, b :: bs => if a < b then true else if b < a then false else jsLtChars as bs

/-- JavaScript `a < b` for strings. -/
def jsLt (a b : String) : Bool := jsLtChars a.data b.data

namespace MerkleTreeUtils

/-- `MerkleTreeUtils.sortPairs` (merkleTreeUtils.ts): order two digests
ascending by JavaScript string comparison. -/
def sortPairs (left right : String) : String × String :=
  if jsLt left right then (left, right) else (right, left)

/-- `MerkleTreeUtils.hashNode`: hash of the sorted pair. -/
def hashNode (k2 : String → String → String) (left right : String) : String :=
  k2 (sortPairs left right).1 (sortPairs left right).2

/-- `MerkleTreeUtils.generateLeaves`. -/
def generateLeaves (kb : Bytes → String) (records : List SensorData) : List String :=
  records.map (leafHash kb)

/-- One pass of the pairing loop in `MerkleTreeUtils.buildLayers`: the right
sibling is `currentLayer[i + 1] || left`, so a missing element *or an empty
string* falls back to the left element. -/
def hashPairs (k2 : String → String → String) : List String → List String
  | [] => []
  | [a] => [hashNode k2 a a]
  | a :: b :: rest => hashNode k2 a (if b = "" then a else b) :: hashPairs k2 rest

/-- The `while` loop of `MerkleTreeUtils.buildLayers`; `fuel` bounds the
number of iterations (the initial layer length suffices, because each
iteration strictly shrinks the layer — see `genBuild_fuel_irrelevant`). -/
def buildAux (k2 : String → String → String) : Nat → List String → List (List String)
  | 0, layer => [layer]
  | fuel + 1, layer =>
      if layer.length ≤ 1 then [layer]
      else layer :: buildAux k2 fuel (hashPairs k2 layer)

/-- `MerkleTreeUtils.buildLayers`: throws (`none`) on an empty leaf list. -/
def buildLayers (k2 : String → String → String) (leaves : List String) :
    Option (List (List String)) :=
  if leaves.length = 0 then none else some (buildAux k2 leaves.length leaves)

/-- The per-leaf proof loop of `MerkleTreeUtils.generateMerkleTree`: walk all
layers except the last; the sibling index is `idx + 1` for even `idx` and
`idx - 1` for odd `idx`; out-of-bounds siblings contribute nothing. -/
def collectProof : List (List String) → Nat → List String
  | [], _ => []
  | [_], _ => []
  | layer :: rest, idx =>
      let siblingIndex := if idx % 2 = 0 then idx + 1 else idx - 1
      (if siblingIndex < layer.length then [layer.getD siblingIndex ""] else []) ++
        collectProof rest (idx / 2)

/-- `MerkleTreeUtils.generateMerkleTree`: leaves, layers, root and proofs. -/
def generateMerkleTree (k2 : String → String → String) (kb : Bytes → String)
    (records : List SensorData) : Option MerkleResult :=
  let leaves := generateLeaves kb records
  match buildLayers k2 leaves with
  | none => none
  | some layers =>
      some ⟨(layers.getLastD []).getD 0 "",
            (List.range leaves.length).map (collectProof layers)⟩

/-- `MerkleTreeUtils.verifyProof`: fold the proof into the leaf with
`hashNode` and compare with the root. -/
def verifyProof (k2 : String → String → String) (leaf : String)
    (proof : List String) (root : String) : Bool :=
  proof.foldl (fun acc e => hashNode k2 acc e) leaf == root

end MerkleTreeUtils

namespace MerkleTree

/-- The sibling hash of the standalone `buildLayers` (merkleTree.ts):
`[left, right].sort()` (JavaScript default sort: lexicographic ascending,
stable, so the pair is swapped exactly when `right < left`) and then the
packed keccak of the sorted pair. -/
def hashNodeSorted (k2 : String → String → String) (left right : String) : String :=
  if jsLt right left then k2 right left else k2 left right

/-- One pass of the pairing loop in the standalone `buildLayers`; the right
sibling is `prev[i + 1] ?? left` (only a *missing* element falls back). -/
def hashPairs (k2 : String → String → String) : List String → List String
  | [] => []
  | [a] => [hashNodeSorted k2 a a]
  | a :: b :: rest => hashNodeSorted k2 a b :: hashPairs k2 rest

/-- The `while` loop of the standalone `buildLayers` (fuel as above). -/
def buildAux (k2 : String → String → String) : Nat → List String → List (List String)
  | 0, layer => [layer]
  | fuel + 1, layer =>
      if layer.length ≤ 1 then [layer]
      else layer :: buildAux k2 fuel (hashPairs k2 layer)

/-- The standalone `buildLayers` (no empty-input check of its own). -/
def buildLayers (k2 : String → String → String) (leaves : List String) :
    List (List String) :=
  buildAux k2 leaves.length leaves

/-- The per-leaf proof loop of the standalone `generateMerkleTree`; the
sibling index is `index ^ 1` (XOR with one). -/
def collectProof : List (List String) → Nat → List String
  | [], _ => []
  | [_], _ => []
  | layer :: rest, idx =>
      let pairIndex := idx ^^^ 1
      (if pairIndex < layer.length then [layer.getD pairIndex ""] else []) ++
        collectProof rest (idx / 2)

/-- The standalone `generateMerkleTree` (merkleTree.ts): throws (`none`) on an
empty record list, otherwise returns root and proofs. -/
def generateMerkleTree (k2 : String → String → String) (kb : Bytes → String)
    (records : List SensorData) : Option MerkleResult :=
  if records.length = 0 then none
  else
    let leaves := records.map (leafHash kb)
    let layers := buildLayers k2 leaves
    some ⟨(layers.getLastD []).getD 0 "",
          (List.range leaves.length).map (collectProof layers)⟩

end MerkleTree

/-- Default record used for out-of-range `getD` indexing. -/
def defaultRecord : SensorData := ⟨"", 0, "", "", ""⟩

/-- The round-trip of P1: build the tree over `records` with the standalone
builder, then verify the `i`-th leaf with its generated proof against the
generated root using `MerkleTreeUtils.verifyProof`. -/
def roundTrip (k2 : String → String → String) (kb : Bytes → String)
    (records : List SensorData) (i : Nat) : Bool :=
  match MerkleTree.generateMerkleTree k2 kb records with
  | none => false
  | some res =>
      MerkleTreeUtils.verifyProof k2 (leafHash kb (records.getD i defaultRecord))
        (res.proofs.getD i []) res.merkleRoot

/-! ## Order facts about the JavaScript string comparison -/

lemma jsLtChars_asymm : ∀ as bs : List Char, jsLtChars as bs = true → jsLtChars bs as = false
  | [], [] => by simp [jsLtChars]
  | [], _ :: _ => by simp [jsLtChars]
  | _ :: _, [] => by simp [jsLtChars]
  | a :: as, b :: bs => by
      simp only [jsLtChars]
      rcases lt_trichotomy a b with h | h | h
      · intro _
        simp [h, lt_asymm h]
      · subst h
        simp [lt_irrefl]
        exact jsLtChars_asymm as bs
      · simp [h, lt_asymm h]

lemma jsLtChars_eq_of_not_lt :
    ∀ as bs : List Char, jsLtChars as bs = false → jsLtChars bs as = false → as = bs
  | [], [] => fun _ _ => rfl
  | [], _ :: _ => by simp [jsLtChars]
  | _ :: _, [] => by simp [jsLtChars]
  | a :: as, b :: bs => by
      simp only [jsLtChars]
      rcases lt_trichotomy a b with h | h | h
      · simp [h]
      · subst h
        simp [lt_irrefl]
        exact jsLtChars_eq_of_not_lt as bs
      · simp [h, lt_asymm h]

lemma jsLt_asymm (a b : String) (h : jsLt a b = true) : jsLt b a = false :=
  jsLtChars_asymm a.data b.data h

lemma jsLt_eq_of_not_lt (a b : String) (h1 : jsLt a b = false) (h2 : jsLt b a = false) :
    a = b :=
  String.ext_iff.mpr (jsLtChars_eq_of_not_lt a.data b.data h1 h2)

/-- The two sibling-index formulas agree: `idx ^ 1` equals
`idx % 2 === 0 ? idx + 1 : idx - 1`. -/
lemma xor_one_eq_sibling (n : Nat) : n ^^^ 1 = if n % 2 = 0 then n + 1 else n - 1 := by
  apply Nat.eq_of_testBit_eq
  intro i
  rcases Nat.even_or_odd n with ⟨k, hk⟩ | ⟨k, hk⟩ <;> subst hk
  · have h2 : (k + k) % 2 = 0 := by omega
    rw [if_pos h2]
    cases i with
    | zero =>
        simp [Nat.testBit_xor, Nat.testBit_zero]
    | succ j =>
        rw [Nat.testBit_xor, Nat.testBit_succ, Nat.testBit_succ, Nat.testBit_succ]
        have h1 : (1 : Nat) / 2 = 0 := by norm_num
        rw [h1]
        have hk2 : (k + k) / 2 = k := by omega
        have hk3 : (k + k + 1) / 2 = k := by omega
        simp [hk2, hk3, Nat.zero_testBit]
  · have h2 : ¬ (2 * k + 1) % 2 = 0 := by omega
    rw [if_neg h2]
    cases i with
    | zero =>
        simp [Nat.testBit_xor, Nat.testBit_zero]
        omega
    | succ j =>
        rw [Nat.testBit_xor, Nat.testBit_succ, Nat.testBit_succ, Nat.testBit_succ]
        have h1 : (1 : Nat) / 2 = 0 := by norm_num
        rw [h1]
        have hk2 : (2 * k + 1) / 2 = k := by omega
        have hk3 : (2 * k + 1 - 1) / 2 = k := by omega
        simp [hk2, hk3, Nat.zero_testBit]

/-! ## Concrete stand-ins for the keccak primitives

Used by witnesses and counterexamples.  `pairFn` is an injective pairing (so
distinct inputs provably give distinct digests) and `leafFn` distinguishes
packed byte strings of different lengths; both never return the empty
string, as is true of real keccak hex digests. -/

/-- Concrete pairwise-hash stand-in. -/
def pairFn (x y : String) : String := "(" ++ x ++ "," ++ y ++ ")"

/-- Concrete leaf-hash stand-in. -/
def leafFn (bs : Bytes) : String := "L" ++ toString bs.length

lemma pairFn_ne_empty (x y : String) : pairFn x y ≠ "" := by
  intro h
  have h2 := congrArg String.length h
  simp [pairFn, String.length_append, show "(".length = 1 from rfl] at h2

lemma leafFn_ne_empty (bs : Bytes) : leafFn bs ≠ "" := by
  intro h
  have h2 := congrArg String.length h
  simp [leafFn, String.length_append, show "L".length = 1 from rfl] at h2

/-- Three distinct concrete records (their packed byte strings have lengths
36, 37 and 38, so `leafFn` gives them three distinct leaf digests). -/
def recA : SensorData := ⟨"d", 0, "a", "t", "l"⟩

/-- Second concrete record. -/
def recB : SensorData := ⟨"d", 0, "ab", "t", "l"⟩

/-- Third concrete record. -/
def recC : SensorData := ⟨"d", 0, "abc", "t", "l"⟩

/-! ## Claim theorems: Merkle subsystem -/

/-- Claim C1 (round-trip inclusion) FAILS on the code: for the three-record
list `[recA, recB, recC]` the proofs generated for indices 0 and 1 verify,
but the proof generated for index 2 does NOT verify against the generated
root.  The builder pairs the odd last node with itself
(`prev[i + 1] ?? left`) while the proof generator emits nothing when the
sibling index is out of bounds, so the verifier never recomputes the
self-pair hash `pairHash(L2, L2)` and derives a different root. -/
theorem roundtrip_inclusion_fails_at_index_two :
    roundTrip pairFn leafFn [recA, recB, recC] 0 = true ∧
    roundTrip pairFn leafFn [recA, recB, recC] 1 = true ∧
    roundTrip pairFn leafFn [recA, recB, recC] 2 = false := by decide

/-- Claim C2: the pairwise node hash is commutative, in both implementations
(`MerkleTreeUtils.hashNode` sorts with an explicit comparison, the standalone
`buildLayers` sorts with the JavaScript default array sort before hashing). -/
theorem pair_hash_commutative (k2 : String → String → String) (a b : String) :
    MerkleTreeUtils.hashNode k2 a b = MerkleTreeUtils.hashNode k2 b a ∧
    MerkleTree.hashNodeSorted k2 a b = MerkleTree.hashNodeSorted k2 b a := by
  constructor
  · unfold MerkleTreeUtils.hashNode MerkleTreeUtils.sortPairs
    cases hab : jsLt a b with
    | true => simp [hab, jsLt_asymm a b hab]
    | false =>
        cases hba : jsLt b a with
        | true => simp [hab, hba]
        | false => simp [hab, hba, jsLt_eq_of_not_lt a b hab hba]
  · unfold MerkleTree.hashNodeSorted
    cases hab : jsLt a b with
    | true => simp [hab, jsLt_asymm a b hab]
    | false =>
        cases hba : jsLt b a with
        | true => simp [hab, hba]
        | false => simp [hab, hba, jsLt_eq_of_not_lt a b hab hba]

/-- Claim C3: the off-chain leaf hash (keccak of the `ethers.solidityPacked`
bytes of the 5-tuple) is byte-identical to the on-chain `dataHash`
(`keccak256(abi.encodePacked(deviceId, timestamp, data, dataType,
location))`) for the same five field values: the two packing schemes produce
the same byte string, hence the same digest under the same keccak. -/
theorem leaf_hash_matches_onchain (kb : Bytes → String) (r : SensorData) :
    leafHash kb r = storeDataHash kb r.deviceId r.timestamp r.data r.dataType r.location ∧
    solidityPacked5 r =
      abiEncodePacked5 r.deviceId r.timestamp r.data r.dataType r.location :=
  ⟨rfl, rfl⟩

/-- Claim C5: building a Merkle tree from an empty leaf/record list fails
with an error (modelled as `none`) in both implementations; no root is
produced for zero records. -/
theorem empty_input_fails (k2 : String → String → String) (kb : Bytes → String) :
    MerkleTreeUtils.buildLayers k2 [] = none ∧
    MerkleTreeUtils.generateMerkleTree k2 kb [] = none ∧
    MerkleTree.generateMerkleTree k2 kb [] = none :=
  ⟨rfl, rfl, rfl⟩

/-- Claim C6: for a single record the root is the leaf hash itself and the
proof for index 0 is empty, in both implementations. -/
theorem single_record_tree (k2 : String → String → String) (kb : Bytes → String)
    (r : SensorData) :
    MerkleTreeUtils.generateMerkleTree k2 kb [r] = some ⟨leafHash kb r, [[]]⟩ ∧
    MerkleTree.generateMerkleTree k2 kb [r] = some ⟨leafHash kb r, [[]]⟩ :=
  ⟨rfl, rfl⟩

/-! ## Layer shape (C4) -/

/-- Generic form of the layer-building while loop, abstracted over the
pairing step; both `buildAux` functions are instances of it. -/
def genBuild (step : List String → List String) : Nat → List String → List (List String)
  | 0, layer => [layer]
  | fuel + 1, layer =>
      if layer.length ≤ 1 then [layer]
      else layer :: genBuild step fuel (step layer)

lemma buildAuxC_eq_genBuild (k2 : String → String → String) :
    ∀ fuel layer, MerkleTreeUtils.buildAux k2 fuel layer =
      genBuild (MerkleTreeUtils.hashPairs k2) fuel layer
  | 0, _ => rfl
  | fuel + 1, layer => by
      simp only [MerkleTreeUtils.buildAux, genBuild, buildAuxC_eq_genBuild k2 fuel]

lemma buildAuxS_eq_genBuild (k2 : String → String → String) :
    ∀ fuel layer, MerkleTree.buildAux k2 fuel layer =
      genBuild (MerkleTree.hashPairs k2) fuel layer
  | 0, _ => rfl
  | fuel + 1, layer => by
      simp only [MerkleTree.buildAux, genBuild, buildAuxS_eq_genBuild k2 fuel]

/-- Each pairing pass of merkleTreeUtils.ts produces `ceil(n / 2)` nodes. -/
lemma length_hashPairsC (k2 : String → String → String) :
    ∀ layer : List String,
      (MerkleTreeUtils.hashPairs k2 layer).length = (layer.length + 1) / 2
  | [] => rfl
  | [_] => by simp [MerkleTreeUtils.hashPairs]
  | _ :: _ :: rest => by
      simp only [MerkleTreeUtils.hashPairs, List.length_cons, length_hashPairsC k2 rest]
      omega

/-- Each pairing pass of merkleTree.ts produces `ceil(n / 2)` nodes. -/
lemma length_hashPairsS (k2 : String → String → String) :
    ∀ layer : List String,
      (MerkleTree.hashPairs k2 layer).length = (layer.length + 1) / 2
  | [] => rfl
  | [_] => by simp [MerkleTree.hashPairs]
  | _ :: _ :: rest => by
      simp only [MerkleTree.hashPairs, List.length_cons, length_hashPairsS k2 rest]
      omega

lemma genBuild_head (step : List String → List String) :
    ∀ fuel layer, (genBuild step fuel layer).headD [] = layer
  | 0, _ => rfl
  | fuel + 1, layer => by
      simp only [genBuild]
      split <;> rfl

lemma genBuild_ne_nil (step : List String → List String) :
    ∀ fuel layer, genBuild step fuel layer ≠ []
  | 0, layer => by simp [genBuild]
  | fuel + 1, layer => by
      simp only [genBuild]
      split <;> simp

/-- Invariant I1: every layer is `ceil` of half the previous one, and the
last layer is a single digest. -/
def layerShape (layers : List (List String)) : Prop :=
  (∀ i, i + 1 < layers.length →
    (layers.getD (i + 1) []).length = ((layers.getD i []).length + 1) / 2) ∧
  (layers.getLastD []).length = 1

lemma getLastD_irrel {α : Type} (l : List α) (b d d' : α) :
    (b :: l).getLastD d = (b :: l).getLastD d' := by
  rw [List.getLastD_cons, List.getLastD_cons]

lemma getLastD_cons_ne {α : Type} (a d : α) (l : List α) (h : l ≠ []) :
    (a :: l).getLastD d = l.getLastD d := by
  cases l with
  | nil => exact absurd rfl h
  | cons b bs =>
      rw [List.getLastD_cons]
      exact getLastD_irrel bs b a d

lemma getD_zero_eq_headD {α : Type} (l : List α) (d : α) : l.getD 0 d = l.headD d := by
  cases l <;> rfl

/-- Any sufficiently large fuel gives the same layers, so the choice of the
initial layer length as fuel is canonical: the fuel embedding computes
exactly what the source's `while` loop computes. -/
lemma genBuild_fuel_irrelevant (step : List String → List String)
    (hstep : ∀ l, (step l).length = (l.length + 1) / 2) :
    ∀ f1 f2 layer, layer.length ≤ f1 + 1 → layer.length ≤ f2 + 1 →
      genBuild step f1 layer = genBuild step f2 layer
  | 0, 0, _, _, _ => rfl
  | 0, f2 + 1, layer, h1, _ => by
      simp only [genBuild]
      rw [if_pos h1]
  | f1 + 1, 0, layer, _, h2 => by
      simp only [genBuild]
      rw [if_pos h2]
  | f1 + 1, f2 + 1, layer, h1, h2 => by
      simp only [genBuild]
      by_cases hs : layer.length ≤ 1
      · rw [if_pos hs, if_pos hs]
      · rw [if_neg hs, if_neg hs,
          genBuild_fuel_irrelevant step hstep f1 f2 (step layer)
            (by rw [hstep]; omega) (by rw [hstep]; omega)]

lemma genBuild_shape (step : List String → List String)
    (hstep : ∀ l, (step l).length = (l.length + 1) / 2) :
    ∀ fuel layer, layer ≠ [] → layer.length ≤ fuel + 1 →
      layerShape (genBuild step fuel layer)
  | 0, layer, hne, hle => by
      have h1 : layer.length = 1 := by
        have := List.length_pos.mpr hne
        omega
      constructor
      · intro i hi
        simp [genBuild] at hi
      · simp [genBuild, List.getLastD_cons, h1]
  | fuel + 1, layer, hne, hle => by
      by_cases hsmall : layer.length ≤ 1
      · have h1 : layer.length = 1 := by
          have := List.length_pos.mpr hne
          omega
        rw [genBuild, if_pos hsmall]
        constructor
        · intro i hi
          simp at hi
        · simp [List.getLastD_cons, h1]
      · have hn : 2 ≤ layer.length := by omega
        have hstepne : step layer ≠ [] := by
          apply List.length_pos.mp
          rw [hstep]
          omega
        have hsteple : (step layer).length ≤ fuel + 1 := by
          rw [hstep]
          omega
        have ih := genBuild_shape step hstep fuel (step layer) hstepne hsteple
        rw [genBuild, if_neg hsmall]
        constructor
        · intro i hi
          cases i with
          | zero =>
              rw [List.getD_cons_succ, List.getD_cons_zero, getD_zero_eq_headD,
                genBuild_head, hstep]
          | succ j =>
              rw [List.getD_cons_succ, List.getD_cons_succ]
              apply ih.1 j
              simp at hi
              omega
        · rw [getLastD_cons_ne _ _ _ (genBuild_ne_nil step fuel (step layer))]
          exact ih.2

/-- Claim C4: for every non-empty leaf list, every produced layer `i + 1`
has exactly `ceil(len(layer i) / 2)` elements and the final layer has
exactly one element (the root), in both implementations. -/
theorem layer_shape_invariant (k2 : String → String → String) (leaves : List String)
    (h : leaves ≠ []) :
    (∃ layers, MerkleTreeUtils.buildLayers k2 leaves = some layers ∧ layerShape layers) ∧
    layerShape (MerkleTree.buildLayers k2 leaves) := by
  have hlen : ¬ leaves.length = 0 := by
    have := List.length_pos.mpr h
    omega
  constructor
  · refine ⟨MerkleTreeUtils.buildAux k2 leaves.length leaves, ?_, ?_⟩
    · simp [MerkleTreeUtils.buildLayers, hlen]
    · rw [buildAuxC_eq_genBuild]
      exact genBuild_shape _ (length_hashPairsC k2) leaves.length leaves h (by omega)
  · rw [MerkleTree.buildLayers, buildAuxS_eq_genBuild]
    exact genBuild_shape _ (length_hashPairsS k2) leaves.length leaves h (by omega)

/-- Witness for C4 at a concrete three-leaf input. -/
theorem layer_shape_invariant_witness :
    (["a", "b", "c"] : List String) ≠ [] ∧
    ((∃ layers, MerkleTreeUtils.buildLayers pairFn ["a", "b", "c"] = some layers ∧
        layerShape layers) ∧
      layerShape (MerkleTree.buildLayers pairFn ["a", "b", "c"])) :=
  ⟨by decide, layer_shape_invariant pairFn ["a", "b", "c"] (by decide)⟩

/-! ## Equivalence of the two implementations (C10) -/

/-- The explicit comparison sort of `MerkleTreeUtils.hashNode` and the
JavaScript default array sort of the standalone builder order any pair the
same way, so the two pairwise hashes coincide on all inputs. -/
lemma hashNode_eq_hashNodeSorted (k2 : String → String → String) (a b : String) :
    MerkleTreeUtils.hashNode k2 a b = MerkleTree.hashNodeSorted k2 a b := by
  unfold MerkleTreeUtils.hashNode MerkleTreeUtils.sortPairs MerkleTree.hashNodeSorted
  cases hab : jsLt a b with
  | true => simp [hab, jsLt_asymm a b hab]
  | false =>
      cases hba : jsLt b a with
      | true => simp [hab, hba]
      | false => simp [hab, hba, jsLt_eq_of_not_lt a b hab hba]

/-- On layers without empty-string digests the two pairing passes agree
(the `||` of merkleTreeUtils.ts and the `??` of merkleTree.ts only differ on
the empty string, which keccak hex digests never are). -/
lemma hashPairsC_eq_hashPairsS (k2 : String → String → String) :
    ∀ layer : List String, (∀ x ∈ layer, x ≠ "") →
      MerkleTreeUtils.hashPairs k2 layer = MerkleTree.hashPairs k2 layer
  | [], _ => rfl
  | [a], _ => by
      simp [MerkleTreeUtils.hashPairs, MerkleTree.hashPairs, hashNode_eq_hashNodeSorted]
  | a :: b :: rest, h => by
      have hb : b ≠ "" := h b (by simp)
      simp only [MerkleTreeUtils.hashPairs, MerkleTree.hashPairs, if_neg hb]
      rw [hashNode_eq_hashNodeSorted,
        hashPairsC_eq_hashPairsS k2 rest (fun x hx => h x (by simp [hx]))]

/-- If the pairwise keccak never returns the empty string, no pairing pass
ever produces an empty-string digest. -/
lemma mem_hashPairsS_ne_empty (k2 : String → String → String)
    (hk2 : ∀ x y, k2 x y ≠ "") :
    ∀ layer x, x ∈ MerkleTree.hashPairs k2 layer → x ≠ ""
  | [], x, hx => by simp [MerkleTree.hashPairs] at hx
  | [a], x, hx => by
      simp only [MerkleTree.hashPairs, List.mem_singleton] at hx
      subst hx
      unfold MerkleTree.hashNodeSorted
      split <;> apply hk2
  | a :: b :: rest, x, hx => by
      simp only [MerkleTree.hashPairs, List.mem_cons] at hx
      rcases hx with hx | hx
      · subst hx
        unfold MerkleTree.hashNodeSorted
        split <;> apply hk2
      · exact mem_hashPairsS_ne_empty k2 hk2 rest x hx

lemma buildAuxC_eq_buildAuxS (k2 : String → String → String)
    (hk2 : ∀ x y, k2 x y ≠ "") :
    ∀ fuel layer, (∀ x ∈ layer, x ≠ "") →
      MerkleTreeUtils.buildAux k2 fuel layer = MerkleTree.buildAux k2 fuel layer
  | 0, _, _ => rfl
  | fuel + 1, layer, h => by
      simp only [MerkleTreeUtils.buildAux, MerkleTree.buildAux]
      by_cases hs : layer.length ≤ 1
      · rw [if_pos hs, if_pos hs]
      · rw [if_neg hs, if_neg hs, hashPairsC_eq_hashPairsS k2 layer h,
          buildAuxC_eq_buildAuxS k2 hk2 fuel (MerkleTree.hashPairs k2 layer)
            (fun x hx => mem_hashPairsS_ne_empty k2 hk2 layer x hx)]

/-- The two sibling-collection loops agree on every layer list and index. -/
lemma collectProofC_eq_collectProofS :
    ∀ layers idx, MerkleTreeUtils.collectProof layers idx = MerkleTree.collectProof layers idx
  | [], _ => rfl
  | [_], _ => rfl
  | l1 :: l2 :: rest, idx => by
      simp only [MerkleTreeUtils.collectProof, MerkleTree.collectProof]
      rw [xor_one_eq_sibling idx, collectProofC_eq_collectProofS (l2 :: rest) (idx / 2)]

/-- Claim C10: on every non-empty record list the class-based implementation
and the standalone implementation return identical roots and identical
per-index proofs, provided the keccak primitives never produce the empty
string (true of real keccak hex digests; the only behavioural difference
between the two pairing loops is the `||`-vs-`??` fallback, which
distinguishes only the empty string). -/
theorem implementations_equivalent (k2 : String → String → String)
    (kb : Bytes → String) (records : List SensorData)
    (hk2 : ∀ x y, k2 x y ≠ "") (hkb : ∀ bs, kb bs ≠ "") (hne : records ≠ []) :
    MerkleTreeUtils.generateMerkleTree k2 kb records =
      MerkleTree.generateMerkleTree k2 kb records := by
  have hlen : ¬ records.length = 0 := by
    have := List.length_pos.mpr hne
    omega
  have hleaves : ∀ x ∈ records.map (leafHash kb), x ≠ "" := by
    intro x hx
    simp only [List.mem_map] at hx
    obtain ⟨r, _, rfl⟩ := hx
    exact hkb _
  have hmaplen : ¬ (records.map (leafHash kb)).length = 0 := by
    simpa using hlen
  unfold MerkleTreeUtils.generateMerkleTree MerkleTree.generateMerkleTree
    MerkleTreeUtils.generateLeaves MerkleTreeUtils.buildLayers MerkleTree.buildLayers
  simp only [if_neg hmaplen, if_neg hlen]
  rw [buildAuxC_eq_buildAuxS k2 hk2 (records.map (leafHash kb)).length
    (records.map (leafHash kb)) hleaves]
  rw [funext (collectProofC_eq_collectProofS
    (MerkleTree.buildAux k2 (records.map (leafHash kb)).length (records.map (leafHash kb))))]

/-- Witness for C10 at the concrete three-record input with the concrete
keccak stand-ins. -/
theorem implementations_equivalent_witness :
    (∀ x y, pairFn x y ≠ "") ∧ (∀ bs, leafFn bs ≠ "") ∧
    ([recA, recB, recC] : List SensorData) ≠ [] ∧
    MerkleTreeUtils.generateMerkleTree pairFn leafFn [recA, recB, recC] =
      MerkleTree.generateMerkleTree pairFn leafFn [recA, recB, recC] :=
  ⟨pairFn_ne_empty, leafFn_ne_empty, by decide,
    implementations_equivalent pairFn leafFn [recA, recB, recC]
      pairFn_ne_empty leafFn_ne_empty (by decide)⟩

/-! ## Aggregation (dataAggregation.ts) -/

/-- A field value inside a reading's parsed structured data: either a number
(JavaScript numbers modelled as exact rationals) or some non-numeric value. -/
inductive JVal where
  | num (q : ℚ)
  | other
deriving DecidableEq

/-- The `data` payload of a raw sensor reading.  `obj fields` models a
structured object — or a JSON string that parses to one — with its fields in
JavaScript enumeration order; `malformed s` models a string on which
`JSON.parse` throws, so `extractNumericValue` returns null via its catch
branch. -/
inductive RawData where
  | obj (fields : List (String × JVal))
  | malformed (s : String)
deriving DecidableEq

/-- Raw sensor reading (`SensorReading`). -/
structure SensorReading where
  deviceId : String
  timestamp : Nat
  data : RawData
  dataType : String
  location : String
deriving DecidableEq

/-- `formatSensorData`: keep the payload if it is a string, else
`JSON.stringify` it (modelled by the uninterpreted serializer `jstr`; a
string whose parse succeeds is modelled as `obj` of its parse and
re-serialized by `jstr` — adequate here because no claim depends on the
exact serialized bytes, which only flow into the leaf hash). -/
def formatSensorData (jstr : List (String × JVal) → String) (r : SensorReading) :
    SensorData where
  deviceId := r.deviceId
  timestamp := r.timestamp
  data :=
    match r.data with
    | .obj fields => jstr fields
    | .malformed s => s
  dataType := r.dataType
  location := r.location

/-- The `for key in data` fallback of `extractNumericValue`: first field
whose value is numeric, in enumeration (= insertion) order. -/
def firstNumeric : List (String × JVal) → Option ℚ
  | [] => none
  | (_, JVal.num q) :: _ => some q
  | _ :: rest => firstNumeric rest

/-- `extractNumericValue`: prefer a numeric `data.value`; else, when
`reading.dataType` is truthy (non-empty), a numeric field named after the
data type; else the first numeric field; else null.  A payload that fails to
parse yields null via the catch branch. -/
def extractNumericValue (r : SensorReading) : Option ℚ :=
  match r.data with
  | .malformed _ => none
  | .obj fields =>
      match fields.lookup "value" with
      | some (JVal.num q) => some q
      | _ =>
          match (if r.dataType ≠ "" then fields.lookup r.dataType else none) with
          | some (JVal.num q) => some q
          | _ => firstNumeric fields

/-- Result of `calculateStatistics`.  The source stores
`standardDeviation = Math.sqrt(variance)`; real square roots are not
computable, so the radicand `variance` is stored and `Real.sqrt` is applied
in theorem statements (the square root is uniquely determined by it). -/
structure Statistics where
  min : ℚ
  max : ℚ
  average : ℚ
  median : ℚ
  variance : ℚ
deriving DecidableEq

/-- `calculateStatistics` (dataAggregation.ts): all zeros for an empty
sample list; otherwise sort ascending (JavaScript numeric sort, modelled by
the stable `insertionSort`) and read off min, max, mean, median and the
population variance (divisor N). -/
def calculateStatistics (values : List ℚ) : Statistics :=
  if values.length = 0 then ⟨0, 0, 0, 0, 0⟩
  else
    let sortedValues := values.insertionSort (· ≤ ·)
    let min := sortedValues.headD 0
    let max := sortedValues.getLastD 0
    let sum := sortedValues.foldl (· + ·) 0
    let average := sum / (sortedValues.length : ℚ)
    let middle := sortedValues.length / 2
    let median :=
      if sortedValues.length % 2 = 0 then
        (sortedValues.getD (middle - 1) 0 + sortedValues.getD middle 0) / 2
      else sortedValues.getD middle 0
    let squaredDiffs := sortedValues.map (fun v => (v - average) ^ 2)
    let variance := squaredDiffs.foldl (· + ·) 0 / (sortedValues.length : ℚ)
    ⟨min, max, average, median, variance⟩

/-- `LocalDataAggregate`; the source's `standardDeviation` field is
`Math.sqrt` of the stored `variance` (see `Statistics`). -/
structure LocalDataAggregate where
  deviceId : String
  dataType : String
  startTimestamp : Nat
  endTimestamp : Nat
  recordCount : Nat
  min : ℚ
  max : ℚ
  average : ℚ
  medianValue : ℚ
  variance : ℚ
  anomalyCount : Nat
  merkleRoot : String
deriving DecidableEq

/-- The grouping key of `aggregateSensorData`: the template string
`deviceId + "-" + dataType`. -/
def keyOf (r : SensorReading) : String := r.deviceId ++ "-" ++ r.dataType

/-- Append a reading to its key's group, preserving JavaScript `Map`
insertion order: existing keys keep their slot, new keys go to the end. -/
def insertGrouped (acc : List (String × List SensorReading)) (k : String)
    (r : SensorReading) : List (String × List SensorReading) :=
  match acc with
  | [] => [(k, [r])]
  | (k', rs) :: rest =>
      if k' = k then (k', rs ++ [r]) :: rest else (k', rs) :: insertGrouped rest k r

/-- The grouping loop of `aggregateSensorData`. -/
def groupByKey (readings : List SensorReading) : List (String × List SensorReading) :=
  readings.foldl (fun acc r => insertGrouped acc (keyOf r) r) []

/-- JavaScript `s.split(sep)` for a single-character separator. -/
def splitOnChar (sep : Char) : List Char → List String
  | [] => [""]
  | c :: cs =>
      let rest := splitOnChar sep cs
      if c = sep then "" :: rest
      else
        match rest with
        | [] => [String.mk [c]]
        | s :: tail => String.mk (c :: s.data) :: tail

/-- `key.split('-')` as used to recover `deviceId` and `dataType`. -/
def splitDash (s : String) : List String := splitOnChar '-' s.data

/-- Default reading for out-of-range `getD`/`headD` indexing. -/
def defaultReading : SensorReading := ⟨"", 0, RawData.malformed "", "", ""⟩

/-- The sort comparator `(a, b) => a.timestamp - b.timestamp`: stable
ascending order by timestamp. -/
def byTimestamp (a b : SensorReading) : Prop := a.timestamp ≤ b.timestamp

instance : DecidableRel byTimestamp := fun a b => Nat.decLe a.timestamp b.timestamp

/-- Per-group body of `aggregateSensorData`: sort the group by timestamp
(in place in the source, so every later step sees the sorted group), extract
the numeric samples, compute statistics, count anomalies via the external
collaborator `an` (`detectBatchAnomalies(group).length`), build the group
Merkle tree over the formatted records, and split the key back into the
`deviceId` and `dataType` slots. -/
def processGroup (k2 : String → String → String) (kb : Bytes → String)
    (an : List SensorReading → Nat) (jstr : List (String × JVal) → String)
    (key : String) (group : List SensorReading) : LocalDataAggregate :=
  let sorted := group.insertionSort byTimestamp
  let numericValues := sorted.filterMap extractNumericValue
  let stats := calculateStatistics numericValues
  let formattedData := sorted.map (formatSensorData jstr)
  let merkleRoot :=
    match MerkleTree.generateMerkleTree k2 kb formattedData with
    | some res => res.merkleRoot
    | none => ""
  { deviceId := (splitDash key).getD 0 ""
    dataType := (splitDash key).getD 1 ""
    startTimestamp := (sorted.headD defaultReading).timestamp
    endTimestamp := (sorted.getLastD defaultReading).timestamp
    recordCount := sorted.length
    min := stats.min
    max := stats.max
    average := stats.average
    medianValue := stats.median
    variance := stats.variance
    anomalyCount := an sorted
    merkleRoot := merkleRoot }

/-- `aggregateSensorData`: group by the concatenated key, then process each
group, in `Map` insertion order. -/
def aggregateSensorData (k2 : String → String → String) (kb : Bytes → String)
    (an : List SensorReading → Nat) (jstr : List (String × JVal) → String)
    (readings : List SensorReading) : List (String × LocalDataAggregate) :=
  (groupByKey readings).map (fun p => (p.1, processGroup k2 kb an jstr p.1 p.2))

/-- Default aggregate for out-of-range `getD` indexing. -/
def defaultAggregate : LocalDataAggregate := ⟨"", "", 0, 0, 0, 0, 0, 0, 0, 0, 0, ""⟩

/-- Default output entry for out-of-range `getD` indexing. -/
def defaultEntry : String × LocalDataAggregate := ("", defaultAggregate)

/-! ## Properties of the grouping loop -/

lemma lookup_insertGrouped_self (k : String) (r : SensorReading) :
    ∀ acc : List (String × List SensorReading),
      (insertGrouped acc k r).lookup k = some (((acc.lookup k).getD []) ++ [r])
  | [] => by simp [insertGrouped, List.lookup]
  | (k', rs) :: rest => by
      by_cases h : k' = k
      · subst h
        simp [insertGrouped, List.lookup]
      · have hne : (k == k') = false := beq_false_of_ne (Ne.symm h)
        simp only [insertGrouped, if_neg h, List.lookup, hne]
        exact lookup_insertGrouped_self k r rest

lemma lookup_insertGrouped_other (k k' : String) (r : SensorReading) (h : k' ≠ k) :
    ∀ acc : List (String × List SensorReading),
      (insertGrouped acc k r).lookup k' = acc.lookup k'
  | [] => by simp [insertGrouped, List.lookup, beq_false_of_ne h]
  | (k'', rs) :: rest => by
      by_cases h2 : k'' = k
      · subst h2
        simp [insertGrouped, List.lookup, beq_false_of_ne h]
      · simp only [insertGrouped, if_neg h2, List.lookup]
        cases hb : (k' == k'') with
        | true => rfl
        | false => exact lookup_insertGrouped_other k k' r h rest

lemma keys_insertGrouped (k : String) (r : SensorReading) :
    ∀ acc : List (String × List SensorReading),
      (insertGrouped acc k r).map Prod.fst =
        if k ∈ acc.map Prod.fst then acc.map Prod.fst else acc.map Prod.fst ++ [k]
  | [] => by simp [insertGrouped]
  | (k', rs) :: rest => by
      by_cases h : k' = k
      · subst h
        simp [insertGrouped]
      · simp only [insertGrouped, if_neg h, List.map_cons, keys_insertGrouped k r rest,
          List.mem_cons]
        by_cases hm : k ∈ rest.map Prod.fst
        · simp [hm, Ne.symm h]
        · simp [hm, Ne.symm h]

lemma nodup_keys_insertGrouped (k : String) (r : SensorReading)
    (acc : List (String × List SensorReading)) (h : (acc.map Prod.fst).Nodup) :
    ((insertGrouped acc k r).map Prod.fst).Nodup := by
  rw [keys_insertGrouped]
  by_cases hm : k ∈ acc.map Prod.fst
  · rwa [if_pos hm]
  · rw [if_neg hm]
    simp [List.nodup_append, h, hm]

lemma groups_ne_nil_insertGrouped (k : String) (r : SensorReading) :
    ∀ acc : List (String × List SensorReading),
      (∀ p ∈ acc, p.2 ≠ []) → ∀ p ∈ insertGrouped acc k r, p.2 ≠ []
  | [], _ => by simp [insertGrouped]
  | (k', rs) :: rest, h => by
      by_cases h2 : k' = k
      · subst h2
        simp only [insertGrouped, if_pos rfl]
        intro p hp
        rcases List.mem_cons.mp hp with rfl | hp'
        · simp
        · exact h p (List.mem_cons_of_mem _ hp')
      · simp only [insertGrouped, if_neg h2]
        intro p hp
        rcases List.mem_cons.mp hp with rfl | hp'
        · exact h _ (List.mem_cons_self _ _)
        · exact groups_ne_nil_insertGrouped k r rest
            (fun q hq => h q (List.mem_cons_of_mem _ hq)) p hp'

/-- The grouping fold, relative to an arbitrary accumulator: afterwards the
group stored at `k` is the old group followed by exactly the readings whose
key is `k`, in input order. -/
lemma groupLoop_lookup :
    ∀ (readings : List SensorReading) (acc : List (String × List SensorReading))
      (k : String),
      (((readings.foldl (fun a r => insertGrouped a (keyOf r) r) acc).lookup k).getD []) =
        ((acc.lookup k).getD []) ++ readings.filter (fun r => keyOf r == k)
  | [], acc, k => by simp
  | r :: rs, acc, k => by
      simp only [List.foldl_cons, List.filter_cons]
      by_cases h : keyOf r = k
      · subst h
        rw [groupLoop_lookup rs (insertGrouped acc (keyOf r) r) (keyOf r),
          lookup_insertGrouped_self]
        simp
      · have hb : (keyOf r == k) = false := beq_false_of_ne h
        rw [groupLoop_lookup rs (insertGrouped acc (keyOf r) r) k,
          lookup_insertGrouped_other (keyOf r) k r (Ne.symm h)]
        simp [hb]

lemma groupLoop_nodup (readings : List SensorReading) :
    ∀ acc : List (String × List SensorReading), (acc.map Prod.fst).Nodup →
      (((readings.foldl (fun a r => insertGrouped a (keyOf r) r) acc)).map Prod.fst).Nodup := by
  induction readings with
  | nil => intro acc h; simpa using h
  | cons r rs ih =>
      intro acc h
      simp only [List.foldl_cons]
      exact ih _ (nodup_keys_insertGrouped (keyOf r) r acc h)

lemma groupLoop_groups_ne_nil (readings : List SensorReading) :
    ∀ acc : List (String × List SensorReading), (∀ p ∈ acc, p.2 ≠ []) →
      ∀ p ∈ readings.foldl (fun a r => insertGrouped a (keyOf r) r) acc, p.2 ≠ [] := by
  induction readings with
  | nil => intro acc h; simpa using h
  | cons r rs ih =>
      intro acc h
      simp only [List.foldl_cons]
      exact ih _ (groups_ne_nil_insertGrouped (keyOf r) r acc h)

lemma lookup_isSome_iff {β : Type} (k : String) :
    ∀ l : List (String × β), (l.lookup k).isSome = true ↔ k ∈ l.map Prod.fst
  | [] => by simp [List.lookup]
  | (k', v) :: rest => by
      by_cases h : k = k'
      · subst h
        simp [List.lookup]
      · simp only [List.lookup, beq_false_of_ne h, List.map_cons, List.mem_cons]
        rw [lookup_isSome_iff k rest]
        simp [h]

lemma lookup_eq_of_mem_nodup {β : Type} :
    ∀ (l : List (String × β)) (p : String × β),
      (l.map Prod.fst).Nodup → p ∈ l → l.lookup p.1 = some p.2
  | [], p, _, hp => by simp at hp
  | (k', v) :: rest, p, hnd, hp => by
      rcases List.mem_cons.mp hp with rfl | hp'
      · simp [List.lookup]
      · have hk : p.1 ≠ k' := by
          intro he
          have : k' ∉ rest.map Prod.fst := (List.nodup_cons.mp (by simpa using hnd)).1
          exact this (he ▸ (List.mem_map.mpr ⟨p, hp', rfl⟩))
        simp only [List.lookup, beq_false_of_ne hk]
        exact lookup_eq_of_mem_nodup rest p (List.nodup_cons.mp (by simpa using hnd)).2 hp'

/-- Keys of `groupByKey` are distinct. -/
lemma groupByKey_nodup (readings : List SensorReading) :
    ((groupByKey readings).map Prod.fst).Nodup :=
  groupLoop_nodup readings [] (by simp)

/-- The group recorded under key `k` is exactly the filter of the input. -/
lemma groupByKey_lookup_getD (readings : List SensorReading) (k : String) :
    (((groupByKey readings).lookup k).getD []) =
      readings.filter (fun r => keyOf r == k) := by
  have h := groupLoop_lookup readings [] k
  simpa [groupByKey, List.lookup] using h

/-- Every entry of `groupByKey` is exactly the filter of the input by its
key, and is non-empty. -/
lemma mem_groupByKey (readings : List SensorReading) (p : String × List SensorReading)
    (hp : p ∈ groupByKey readings) :
    p.2 = readings.filter (fun r => keyOf r == p.1) ∧ p.2 ≠ [] := by
  have hl := lookup_eq_of_mem_nodup (groupByKey readings) p (groupByKey_nodup readings) hp
  have hg := groupByKey_lookup_getD readings p.1
  rw [hl] at hg
  refine ⟨by simpa using hg, ?_⟩
  exact groupLoop_groups_ne_nil readings [] (by simp) p hp

/-- Every reading's key appears among the produced groups. -/
lemma keyOf_mem_groupByKey (readings : List SensorReading) (r : SensorReading)
    (hr : r ∈ readings) : keyOf r ∈ (groupByKey readings).map Prod.fst := by
  rw [← lookup_isSome_iff]
  have hg := groupByKey_lookup_getD readings (keyOf r)
  by_cases h : ((groupByKey readings).lookup (keyOf r)).isSome = true
  · exact h
  · exfalso
    have hnone : (groupByKey readings).lookup (keyOf r) = none := by
      cases hx : (groupByKey readings).lookup (keyOf r) with
      | none => rfl
      | some v => rw [hx] at h; simp at h
    rw [hnone] at hg
    have hmem : r ∈ readings.filter (fun r' => keyOf r' == keyOf r) :=
      List.mem_filter.mpr ⟨hr, by simp⟩
    rw [← hg] at hmem
    simp at hmem

/-! ## Aggregate-level facts -/

lemma aggregate_keys (k2 : String → String → String) (kb : Bytes → String)
    (an : List SensorReading → Nat) (jstr : List (String × JVal) → String)
    (readings : List SensorReading) :
    (aggregateSensorData k2 kb an jstr readings).map Prod.fst =
      (groupByKey readings).map Prod.fst := by
  simp [aggregateSensorData]

lemma mem_aggregate (k2 : String → String → String) (kb : Bytes → String)
    (an : List SensorReading → Nat) (jstr : List (String × JVal) → String)
    (readings : List SensorReading) (p : String × LocalDataAggregate)
    (hp : p ∈ aggregateSensorData k2 kb an jstr readings) :
    p.2 = processGroup k2 kb an jstr p.1 (readings.filter (fun r => keyOf r == p.1)) ∧
    readings.filter (fun r => keyOf r == p.1) ≠ [] := by
  simp only [aggregateSensorData, List.mem_map] at hp
  obtain ⟨q, hq, rfl⟩ := hp
  obtain ⟨hfilter, hne⟩ := mem_groupByKey readings q hq
  constructor
  · simp only
    rw [← hfilter]
  · rw [← hfilter]
    exact hne

lemma getD_mem_of_lt {α : Type} (l : List α) (i : Nat) (d : α) (h : i < l.length) :
    l.getD i d ∈ l := by
  rw [List.getD_eq_getElem l d h]
  exact List.getElem_mem h

/-! ## Claim theorems: aggregation -/

/-- First reading of the grouping counterexample: deviceId `device-001`,
dataType `temperature`. -/
def readX : SensorReading :=
  ⟨"device-001", 1, RawData.obj [("value", JVal.num 20)], "temperature", "g"⟩

/-- Second reading of the grouping counterexample: deviceId `device`,
dataType `001-temperature` — both fields differ from `readX`, yet the
concatenated key is the same string `device-001-temperature`. -/
def readY : SensorReading :=
  ⟨"device", 2, RawData.obj [("value", JVal.num 21)], "001-temperature", "g"⟩

/-- Claim C7 is FALSE as stated: `readX` and `readY` differ in both
`deviceId` and `dataType`, yet `aggregateSensorData` puts them into a single
group (one aggregate with `recordCount = 2`), because grouping is by the
concatenated string `deviceId + "-" + dataType`; moreover the emitted
aggregate carries `deviceId = "device"` and `dataType = "001"` (the first
two dash-separated segments of the key), not the group's field values. -/
theorem grouping_counterexample :
    readX.deviceId ≠ readY.deviceId ∧ readX.dataType ≠ readY.dataType ∧
    (aggregateSensorData pairFn leafFn (fun _ => 0) (fun _ => "s") [readX, readY]).length
      = 1 ∧
    ((aggregateSensorData pairFn leafFn (fun _ => 0) (fun _ => "s")
      [readX, readY]).getD 0 defaultEntry).2.recordCount = 2 ∧
    ((aggregateSensorData pairFn leafFn (fun _ => 0) (fun _ => "s")
      [readX, readY]).getD 0 defaultEntry).2.deviceId = "device" ∧
    ((aggregateSensorData pairFn leafFn (fun _ => 0) (fun _ => "s")
      [readX, readY]).getD 0 defaultEntry).2.dataType = "001" ∧
    readX.deviceId = "device-001" ∧ readX.dataType = "temperature" := by decide

/-- Claim C7, amended: records are grouped by equality of the concatenated
string `deviceId ++ "-" ++ dataType` (so an exact field match implies the
same group, but distinct pairs may also collide when `deviceId` contains a
dash); each emitted aggregate's `recordCount` is the number of input
readings with its key, its keys are pairwise distinct and cover every
reading, and the emitted `deviceId`/`dataType` slots are the first two
dash-separated segments of the key (equal to the group's field values
exactly when `deviceId` and `dataType` are dash-free). -/
theorem grouping_by_joined_key (k2 : String → String → String) (kb : Bytes → String)
    (an : List SensorReading → Nat) (jstr : List (String × JVal) → String)
    (readings : List SensorReading) (i : Nat)
    (hi : i < (aggregateSensorData k2 kb an jstr readings).length) :
    let out := aggregateSensorData k2 kb an jstr readings
    let p := out.getD i defaultEntry
    p.2.recordCount = (readings.filter (fun r => keyOf r == p.1)).length ∧
    p.2.deviceId = (splitDash p.1).getD 0 "" ∧
    p.2.dataType = (splitDash p.1).getD 1 "" ∧
    (out.map Prod.fst).Nodup ∧
    ∀ r ∈ readings, keyOf r ∈ out.map Prod.fst := by
  intro out p
  have hp : p ∈ out := getD_mem_of_lt out i defaultEntry hi
  obtain ⟨heq, -⟩ := mem_aggregate k2 kb an jstr readings p hp
  refine ⟨?_, ?_, ?_, ?_, ?_⟩
  · rw [heq]
    simp only [processGroup]
    exact (List.perm_insertionSort byTimestamp _).length_eq
  · rw [heq]
    rfl
  · rw [heq]
    rfl
  · rw [aggregate_keys]
    exact groupByKey_nodup readings
  · intro r hr
    rw [aggregate_keys]
    exact keyOf_mem_groupByKey readings r hr

/-- Witness for the amended C7 at a concrete one-reading input. -/
theorem grouping_by_joined_key_witness :
    0 < (aggregateSensorData pairFn leafFn (fun _ => 0) (fun _ => "s") [readX]).length ∧
    (let out := aggregateSensorData pairFn leafFn (fun _ => 0) (fun _ => "s") [readX]
     let p := out.getD 0 defaultEntry
     p.2.recordCount = ([readX].filter (fun r => keyOf r == p.1)).length ∧
     p.2.deviceId = (splitDash p.1).getD 0 "" ∧
     p.2.dataType = (splitDash p.1).getD 1 "" ∧
     (out.map Prod.fst).Nodup ∧
     ∀ r ∈ [readX], keyOf r ∈ out.map Prod.fst) :=
  ⟨by decide,
    grouping_by_joined_key pairFn leafFn (fun _ => 0) (fun _ => "s") [readX] 0 (by decide)⟩

/-- Claim C8: a group in which no record yields a numeric sample reports
`min`, `max`, `average`, `medianValue` and the standard deviation all as `0`
(the stored radicand is `0` and `Math.sqrt 0 = 0`), while `recordCount`
still equals the true number of records in the group. -/
theorem zero_sample_group_statistics (k2 : String → String → String)
    (kb : Bytes → String) (an : List SensorReading → Nat)
    (jstr : List (String × JVal) → String)
    (readings : List SensorReading) (i : Nat)
    (hi : i < (aggregateSensorData k2 kb an jstr readings).length)
    (hnone : ∀ r ∈ readings,
      keyOf r = ((aggregateSensorData k2 kb an jstr readings).getD i defaultEntry).1 →
      extractNumericValue r = none) :
    let p := (aggregateSensorData k2 kb an jstr readings).getD i defaultEntry
    p.2.min = 0 ∧ p.2.max = 0 ∧ p.2.average = 0 ∧ p.2.medianValue = 0 ∧
    p.2.variance = 0 ∧ Real.sqrt ((p.2.variance : ℚ) : ℝ) = 0 ∧
    p.2.recordCount = (readings.filter (fun r => keyOf r == p.1)).length := by
  intro p
  have hp : p ∈ aggregateSensorData k2 kb an jstr readings :=
    getD_mem_of_lt _ i defaultEntry hi
  obtain ⟨heq, -⟩ := mem_aggregate k2 kb an jstr readings p hp
  have hsamples :
      (List.insertionSort byTimestamp
        (readings.filter (fun r => keyOf r == p.1))).filterMap extractNumericValue = [] := by
    apply List.filterMap_eq_nil_iff.mpr
    intro a ha
    have hmem : a ∈ readings.filter (fun r => keyOf r == p.1) :=
      (List.perm_insertionSort byTimestamp _).mem_iff.mp ha
    obtain ⟨har, hak⟩ := List.mem_filter.mp hmem
    exact hnone a har (beq_iff_eq.mp hak)
  have hzero : calculateStatistics
      ((List.insertionSort byTimestamp
        (readings.filter (fun r => keyOf r == p.1))).filterMap extractNumericValue) =
      ⟨0, 0, 0, 0, 0⟩ := by
    rw [hsamples]
    rfl
  refine ⟨?_, ?_, ?_, ?_, ?_, ?_, ?_⟩
  · rw [heq]; simp only [processGroup, hzero]
  · rw [heq]; simp only [processGroup, hzero]
  · rw [heq]; simp only [processGroup, hzero]
  · rw [heq]; simp only [processGroup, hzero]
  · rw [heq]; simp only [processGroup, hzero]
  · rw [heq]
    simp only [processGroup, hzero]
    simp [Real.sqrt_zero]
  · rw [heq]
    simp only [processGroup]
    exact (List.perm_insertionSort byTimestamp _).length_eq

/-- A reading with no numeric field at all. -/
def readZ : SensorReading :=
  ⟨"dev", 5, RawData.obj [("status", JVal.other)], "state", "g"⟩

/-- Witness for C8 at a concrete one-reading group with no numeric sample. -/
theorem zero_sample_group_statistics_witness :
    0 < (aggregateSensorData pairFn leafFn (fun _ => 0) (fun _ => "s") [readZ]).length ∧
    (∀ r ∈ [readZ],
      keyOf r = ((aggregateSensorData pairFn leafFn (fun _ => 0) (fun _ => "s")
        [readZ]).getD 0 defaultEntry).1 →
      extractNumericValue r = none) ∧
    (let p := (aggregateSensorData pairFn leafFn (fun _ => 0) (fun _ => "s")
      [readZ]).getD 0 defaultEntry
     p.2.min = 0 ∧ p.2.max = 0 ∧ p.2.average = 0 ∧ p.2.medianValue = 0 ∧
     p.2.variance = 0 ∧ Real.sqrt ((p.2.variance : ℚ) : ℝ) = 0 ∧
     p.2.recordCount = ([readZ].filter (fun r => keyOf r == p.1)).length) :=
  ⟨by decide, by decide,
    zero_sample_group_statistics pairFn leafFn (fun _ => 0) (fun _ => "s") [readZ] 0
      (by decide) (by decide)⟩

/-! ## Statistics (C9) -/

lemma getLastD_mem {α : Type} : ∀ (l : List α) (d : α), l ≠ [] → l.getLastD d ∈ l
  | [], _, h => absurd rfl h
  | [a], d, _ => by simp [List.getLastD_cons]
  | a :: b :: t, d, _ => by
      rw [getLastD_cons_ne a d (b :: t) (by simp)]
      exact List.mem_cons_of_mem a (getLastD_mem (b :: t) d (by simp))

lemma sorted_le_getLastD : ∀ l : List ℚ, l.Sorted (· ≤ ·) → ∀ x ∈ l, x ≤ l.getLastD 0
  | [], _, x, hx => by simp at hx
  | [a], _, x, hx => by
      simp at hx
      subst hx
      simp [List.getLastD_cons]
  | a :: b :: t, h, x, hx => by
      rw [getLastD_cons_ne a 0 (b :: t) (by simp)]
      rcases List.mem_cons.mp hx with rfl | hx'
      · exact List.rel_of_sorted_cons h _ (getLastD_mem (b :: t) (0 : ℚ) (by simp))
      · exact sorted_le_getLastD (b :: t) h.of_cons x hx'

/-- `calculateStatistics` on a non-empty list, with the let-bindings spelled
out. -/
lemma calculateStatistics_pos (values : List ℚ) (h : ¬ values.length = 0) :
    calculateStatistics values =
      ⟨(values.insertionSort (· ≤ ·)).headD 0,
       (values.insertionSort (· ≤ ·)).getLastD 0,
       ((values.insertionSort (· ≤ ·)).foldl (· + ·) 0) /
         ((values.insertionSort (· ≤ ·)).length : ℚ),
       (if (values.insertionSort (· ≤ ·)).length % 2 = 0 then
          ((values.insertionSort (· ≤ ·)).getD
              ((values.insertionSort (· ≤ ·)).length / 2 - 1) 0 +
            (values.insertionSort (· ≤ ·)).getD
              ((values.insertionSort (· ≤ ·)).length / 2) 0) / 2
        else
          (values.insertionSort (· ≤ ·)).getD
            ((values.insertionSort (· ≤ ·)).length / 2) 0),
       ((values.insertionSort (· ≤ ·)).map (fun v =>
          (v - ((values.insertionSort (· ≤ ·)).foldl (· + ·) 0) /
            ((values.insertionSort (· ≤ ·)).length : ℚ)) ^ 2)).foldl (· + ·) 0 /
         ((values.insertionSort (· ≤ ·)).length : ℚ)⟩ := by
  unfold calculateStatistics
  rw [if_neg h]

/-- Specification-side characterization of `calculateStatistics` on a
non-empty sample list: min/max are the minimum/maximum of the samples, the
average is the arithmetic mean, the median is the central sorted value (odd
count) or the mean of the two central sorted values (even count), and the
standard deviation is the square root of the population variance
(divisor N). -/
def statisticsSpec (values : List ℚ) : Prop :=
  List.Perm (values.insertionSort (· ≤ ·)) values ∧
  (values.insertionSort (· ≤ ·)).Sorted (· ≤ ·) ∧
  ((calculateStatistics values).min ∈ values ∧
    ∀ x ∈ values, (calculateStatistics values).min ≤ x) ∧
  ((calculateStatistics values).max ∈ values ∧
    ∀ x ∈ values, x ≤ (calculateStatistics values).max) ∧
  (calculateStatistics values).average = values.sum / (values.length : ℚ) ∧
  (calculateStatistics values).median =
    (if values.length % 2 = 0 then
      ((values.insertionSort (· ≤ ·)).getD (values.length / 2 - 1) 0 +
        (values.insertionSort (· ≤ ·)).getD (values.length / 2) 0) / 2
    else (values.insertionSort (· ≤ ·)).getD (values.length / 2) 0) ∧
  (calculateStatistics values).variance =
    (values.map (fun x => (x - (calculateStatistics values).average) ^ 2)).sum /
      (values.length : ℚ) ∧
  Real.sqrt (((calculateStatistics values).variance : ℚ) : ℝ) =
    Real.sqrt (((values.map (fun x =>
      (x - (calculateStatistics values).average) ^ 2)).sum / (values.length : ℚ) : ℚ) : ℝ)

/-- The three readings of Scenario A: deviceId `device-001`, dataType
`temperature`, values 20, 22, 19 at ascending timestamps. -/
def scenarioRecords : List SensorReading :=
  [⟨"device-001", 1000, RawData.obj [("value", JVal.num 20)], "temperature", "greenhouse"⟩,
   ⟨"device-001", 2000, RawData.obj [("value", JVal.num 22)], "temperature", "greenhouse"⟩,
   ⟨"device-001", 3000, RawData.obj [("value", JVal.num 19)], "temperature", "greenhouse"⟩]

/-- The single aggregate produced for Scenario A (with the concrete keccak,
anomaly and serializer stand-ins, none of which affect the claimed slots). -/
def scenarioAggregate : String × LocalDataAggregate :=
  (aggregateSensorData pairFn leafFn (fun _ => 0) (fun _ => "s") scenarioRecords).getD 0
    defaultEntry

/-- Scenario A of the specification: one group, recordCount 3, min 19,
max 22, average 61/3 (= 20.33 up to rounding), median 20. -/
def scenarioHolds : Prop :=
  (aggregateSensorData pairFn leafFn (fun _ => 0) (fun _ => "s") scenarioRecords).map
    Prod.fst = ["device-001-temperature"] ∧
  scenarioAggregate.2.recordCount = 3 ∧
  scenarioAggregate.2.min = 19 ∧
  scenarioAggregate.2.max = 22 ∧
  scenarioAggregate.2.average = 61 / 3 ∧
  scenarioAggregate.2.medianValue = 20

/-- Claim C9: the statistics of every group with at least one numeric sample
are as specified (minimum, maximum, arithmetic mean, central-sorted-value
median, population standard deviation with divisor N), and Scenario A
produces recordCount 3, min 19, max 22, average 61/3, median 20. -/
theorem statistics_definitions (values : List ℚ) (hv : values ≠ []) :
    statisticsSpec values ∧ scenarioHolds := by
  have hlen : ¬ values.length = 0 := by
    have := List.length_pos.mpr hv
    omega
  have hperm : List.Perm (values.insertionSort (· ≤ ·)) values :=
    List.perm_insertionSort _ values
  have hsorted : (values.insertionSort (· ≤ ·)).Sorted (· ≤ ·) :=
    List.sorted_insertionSort _ values
  have hslen : (values.insertionSort (· ≤ ·)).length = values.length := hperm.length_eq
  have hsne : values.insertionSort (· ≤ ·) ≠ [] := by
    intro h0
    rw [h0] at hslen
    simp at hslen
    exact hlen hslen.symm
  obtain ⟨a, t, hs⟩ := List.exists_cons_of_ne_nil hsne
  have havg : (calculateStatistics values).average =
      ((values.insertionSort (· ≤ ·)).foldl (· + ·) 0) /
        ((values.insertionSort (· ≤ ·)).length : ℚ) := by
    rw [calculateStatistics_pos values hlen]
  have hvar : (calculateStatistics values).variance =
      (values.map (fun x => (x - (calculateStatistics values).average) ^ 2)).sum /
        (values.length : ℚ) := by
    rw [havg, calculateStatistics_pos values hlen]
    dsimp only
    rw [← List.sum_eq_foldl, hslen, (hperm.map _).sum_eq]
  constructor
  · refine ⟨hperm, hsorted, ⟨?_, ?_⟩, ⟨?_, ?_⟩, ?_, ?_, hvar, ?_⟩
    · rw [calculateStatistics_pos values hlen]
      dsimp only
      rw [hs]
      simp only [List.headD_cons]
      have ha : a ∈ values.insertionSort (· ≤ ·) := by
        rw [hs]
        exact List.mem_cons_self a t
      exact hperm.mem_iff.mp ha
    · intro x hx
      rw [calculateStatistics_pos values hlen]
      dsimp only
      rw [hs]
      have hxs : x ∈ values.insertionSort (· ≤ ·) := hperm.mem_iff.mpr hx
      rw [hs] at hxs
      rcases List.mem_cons.mp hxs with rfl | hx'
      · simp
      · simpa using List.rel_of_sorted_cons (hs ▸ hsorted) x hx'
    · rw [calculateStatistics_pos values hlen]
      dsimp only
      exact hperm.mem_iff.mp
        (getLastD_mem (values.insertionSort (· ≤ ·)) 0 hsne)
    · intro x hx
      rw [calculateStatistics_pos values hlen]
      dsimp only
      exact sorted_le_getLastD _ hsorted x (hperm.mem_iff.mpr hx)
    · rw [havg, ← List.sum_eq_foldl, hperm.sum_eq, hslen]
    · rw [calculateStatistics_pos values hlen]
      dsimp only
      rw [hslen]
    · exact congrArg (fun q : ℚ => Real.sqrt (q : ℝ)) hvar
  · refine ⟨by decide, by decide, by decide, by decide, ?_, by decide⟩
    have h1 : scenarioAggregate.2.average =
        (calculateStatistics [(20 : ℚ), 22, 19]).average := rfl
    have h2 : (calculateStatistics [(20 : ℚ), 22, 19]).average = 61 / 3 := by
      rw [calculateStatistics_pos [(20 : ℚ), 22, 19] (by decide)]
      dsimp only
      have hsc : ([(20 : ℚ), 22, 19]).insertionSort (· ≤ ·) = [19, 20, 22] := by decide
      rw [hsc]
      norm_num
    exact h1.trans h2

/-- Witness for C9 at the concrete sample list of Scenario A. -/
theorem statistics_definitions_witness :
    ([(20 : ℚ), 22, 19] : List ℚ) ≠ [] ∧
    (statisticsSpec [(20 : ℚ), 22, 19] ∧ scenarioHolds) :=
  ⟨by decide, statistics_definitions [(20 : ℚ), 22, 19] (by decide)⟩
